import Mathlib

/-!
Verification of the note-to-markdown transformation and naming engine of
`kim.py` (keep-it-markdown).  Texts are shallowly embedded as `List Char`;
Python's `str.replace`, `str.strip`, `re.findall` (for the one fixed URL
pattern used by the program) and the relevant methods of the `Note`,
`Markdown`, `NameService` and `FileService` classes are translated into
executable Lean functions below.  Character predicates (`isupper`,
`islower`, `isalnum`, `isspace`) are modelled over ASCII, which covers
every string the program's own constants and the concrete scenarios use.
-/

namespace Kim

/-! ## Python string primitives -/

/-- Whitespace characters recognised by Python's `str.strip` / `str.isspace`
(ASCII subset: space, tab, newline, carriage return, vertical tab, form feed). -/
def isPySpace (c : Char) : Bool :=
  c = ' ' || c = '\t' || c = '\n' || c = '\r' || c = '\x0b' || c = '\x0c'

/-- Python `s.strip()`: drop leading and trailing whitespace. -/
def pyStrip (l : List Char) : List Char :=
  ((l.dropWhile isPySpace).reverse.dropWhile isPySpace).reverse

/-- Does `pat` occur as a contiguous substring of `t`?  (Python `pat in t`.) -/
def containsStr (pat : List Char) : List Char → Bool
  | [] => pat.isPrefixOf []
  | c :: cs => pat.isPrefixOf (c :: cs) || containsStr pat cs

/-- Python `t.replace(pat, rep, 1)`: replace the leftmost occurrence of `pat`
in `t` by `rep`; `t` unchanged when `pat` does not occur.  (All call sites in
the program pass a non-empty `pat`.) -/
def replFirst : List Char → List Char → List Char → List Char
  | [], _, _ => []
  | c :: cs, pat, rep =>
    if pat.isPrefixOf (c :: cs) then rep ++ (c :: cs).drop pat.length
    else c :: replFirst cs pat rep

/-- Python `t.replace(pat, rep)`: replace every (leftmost, non-overlapping)
occurrence of `pat` in `t` by `rep`.  Fuel-driven so that the definition is
structurally recursive; `fuel = t.length` always suffices because every step
consumes at least one character of `t` (all call sites pass non-empty `pat`). -/
def replAllF : Nat → List Char → List Char → List Char → List Char
  | 0, t, _, _ => t
  | fuel + 1, t, pat, rep =>
    match t with
    | [] => []
    | c :: cs =>
      if pat.isPrefixOf (c :: cs) then rep ++ replAllF fuel ((c :: cs).drop pat.length) pat rep
      else c :: replAllF fuel cs pat rep

/-! ## Markdown.convert_urls (kim.py lines 368-382)

The regex
`http[s]?://(?:[a-zA-Z]|[0-9]|[~#$-_@.&+]|[!*\(\),]|(?:%[0-9a-fA-F][0-9a-fA-F]))+`
matches a literal `http`, an optional `s`, a literal `://`, then a maximal
non-empty run of characters from the union of the alternatives.  Inside a
character class `$-_` is the code-point range 0x24-0x5F, which already
contains the digits, the upper-case letters, `%`, and every character of the
remaining single-character alternatives except `!`, `#` and `~`; the
`%HH` alternative is subsumed (its characters all lie in the union and the
single-character alternative for `%` is tried first).  Hence the run set is
exactly the predicate below, and each regex match is `http[s]?://` followed
by the maximal non-empty run of such characters. -/

/-- Characters of the URL body run set of the regex in `convert_urls`. -/
def isUrlChar (c : Char) : Bool :=
  (('a' ≤ c) && (c ≤ 'z')) || (('$' ≤ c) && (c ≤ '_')) || c = '!' || c = '#' || c = '~'

/-- Complete a regex match: `pre` is the matched scheme part, `rest` the text
after it; the body run must be non-empty, otherwise the position fails. -/
def urlBody (pre rest : List Char) : Option (List Char × List Char) :=
  if (rest.takeWhile isUrlChar).isEmpty then none
  else some (pre ++ rest.takeWhile isUrlChar, rest.dropWhile isUrlChar)

/-- Try to match the URL regex at the start of `l`, returning the matched
string and the remaining text. -/
def matchUrl (l : List Char) : Option (List Char × List Char) :=
  if ("https://".toList).isPrefixOf l then urlBody ("https://".toList) (l.drop 8)
  else if ("http://".toList).isPrefixOf l then urlBody ("http://".toList) (l.drop 7)
  else none

/-- `re.findall` for the URL pattern: scan left to right, taking the leftmost
match at each position and continuing after it (non-overlapping), else moving
one character forward.  Fuel-driven; `fuel = l.length` suffices because every
step consumes at least one character. -/
def findUrlsF : Nat → List Char → List (List Char)
  | 0, _ => []
  | _ + 1, [] => []
  | fuel + 1, c :: cs =>
    match matchUrl (c :: cs) with
    | some (m, rest) => m :: findUrlsF fuel rest
    | none => findUrlsF fuel cs

/-- The replacement `[{url[:1]}%%%{url[2:]}]({url[:1]}%%%{url[2:]})` built by
`convert_urls` for one matched URL. -/
def wrapUrl (u : List Char) : List Char :=
  ['['] ++ (u.take 1 ++ "%%%".toList ++ u.drop 2) ++ [']', '('] ++
    (u.take 1 ++ "%%%".toList ++ u.drop 2) ++ [')']

/-- The final global pass of `convert_urls`: `text.replace("h%%%tp", "http")`. -/
def sentinelFix (u : List Char) : List Char :=
  replAllF u.length u ("h%%%tp".toList) ("http".toList)

/-- `Markdown.convert_urls`: find all URL matches, replace the first remaining
occurrence of each by its sentinel-wrapped Markdown link, then restore the
sentinel globally. -/
def convert_urls (t : List Char) : List Char :=
  sentinelFix
    (List.foldl (fun acc url => replFirst acc url (wrapUrl url)) t (findUrlsF t.length t))

/-! ## Markdown.format_check_boxes (kim.py lines 384-386) -/

/-- `Markdown.format_check_boxes`:
`text.replace("☐", "- [ ]").replace("☑", " - [x]")`. -/
def format_check_boxes (t : List Char) : List Char :=
  replAllF (replAllF t.length t ['☐'] ("- [ ]".toList)).length
    (replAllF t.length t ['☐'] ("- [ ]".toList)) ['☑'] (" - [x]".toList)

/-- Character-wise expansion of a text: each character is mapped to a string
and the results are concatenated.  Used to state what the two chained global
replacements of `format_check_boxes` amount to. -/
def mapGlyphs (f : Char → List Char) : List Char → List Char
  | [] => []
  | c :: cs => f c ++ mapGlyphs f cs

/-- The per-character substitution actually performed by
`format_check_boxes`: the unchecked-box glyph becomes `- [ ]`, the
checked-box glyph becomes `- [x]` preceded by one space, everything else is
kept. -/
def boxSub (c : Char) : List Char :=
  if c = '☐' then "- [ ]".toList
  else if c = '☑' then " - [x]".toList
  else [c]

/-! ## Note.title (kim.py lines 173-208) and Note label properties -/

/-- A Python `datetime.datetime` restricted to the fields `strftime` uses
here.  `datetime` validates its fields on construction (month 1-12, day of
month, hour < 24, minute < 60, second < 60), so each field below is under
100 for every constructible value. -/
structure PyDateTime where
  year : Nat
  month : Nat
  day : Nat
  hour : Nat
  minute : Nat
  second : Nat
deriving DecidableEq

/-- A zero-padded two-digit `strftime` field (`%m`, `%d`, `%H`, `%M`, `%S`,
and `%y` after its year-mod-100).  Exact for every constructible
`datetime` field value, all of which are below 100. -/
def fmt2 (n : Nat) : List Char :=
  [Nat.digitChar (n / 10 % 10), Nat.digitChar (n % 10)]

/-- `created_when.strftime("%y%m%d%H%M%S")`: the 12-character fragment
timestamp. -/
def tsChars (dt : PyDateTime) : List Char :=
  fmt2 (dt.year % 100) ++ fmt2 dt.month ++ fmt2 dt.day ++
    fmt2 dt.hour ++ fmt2 dt.minute ++ fmt2 dt.second

/-- The character filter of `Note.title`:
`c.isalnum() or c.isspace()` (ASCII). -/
def keepCh (c : Char) : Bool :=
  c.isAlphanum || isPySpace c

/-- The separator class of `re.split(r"[\.,:;?!]", first_line)`. -/
def punctStop (c : Char) : Bool :=
  c = '.' || c = ',' || c = ':' || c = ';' || c = '?' || c = '!'

/-- Python `s.split(".")[-1]`: the segment after the last dot (the whole
string when there is no dot). -/
def lastAfterDot (l : List Char) : List Char :=
  (l.reverse.takeWhile (fun c => !(c = '.'))).reverse

/-- Lines 175-198 of `Note.title`: the base title before the fragment rule.
First the raw title filtered to alphanumeric-and-whitespace characters; if
that strips to nothing and the body also strips to nothing, a name inferred
from the first attachment's extension (unchanged when there is no
attachment); else if only the title strips to nothing, the cleaned first
phrase of the body truncated to 64 characters. -/
def baseTitlePart (base text : List Char) (media : List (List Char)) : List Char :=
  if (pyStrip (base.filter keepCh)).isEmpty && (pyStrip text).isEmpty then
    match media with
    | [] => base.filter keepCh
    | m :: _ =>
      if lastAfterDot m = "jpg".toList || lastAfterDot m = "png".toList then
        "Image".toList
      else
        "File".toList
  else if (pyStrip (base.filter keepCh)).isEmpty then
    (pyStrip (((text.takeWhile (fun c => !(c = '\n'))).takeWhile
      (fun c => !(punctStop c))).filter keepCh)).take 64
  else
    base.filter keepCh

/-- `Note.title` with the note's fragment status supplied (the property reads
`self.is_fragment` exactly once, at line 201): for a fragment the timestamp
is prepended, with one space before the base title when that is non-empty. -/
def resolveTitle (base text : List Char) (media : List (List Char))
    (frag : Bool) (dt : PyDateTime) : List Char :=
  if frag then
    tsChars dt ++
      (if (baseTitlePart base text media).isEmpty then []
       else ' ' :: baseTitlePart base text media)
  else
    baseTitlePart base text media

/-- First character is an upper-case letter (`label[0].isupper()`, ASCII);
only ever consulted on non-empty labels. -/
def headIsUpper (l : List Char) : Bool :=
  match l with
  | [] => false
  | c :: _ => c.isUpper

/-- First character is a lower-case letter (`label[0].islower()`, ASCII);
only ever consulted on non-empty labels. -/
def headIsLower (l : List Char) : Bool :=
  match l with
  | [] => false
  | c :: _ => c.isLower

/-- The generator `any(label[0].isupper() for label in self.labels)`:
evaluated left to right with short-circuit on the first `True`; indexing an
empty label raises `IndexError` (modelled as `none`), so the exception is
raised only when an empty label is reached before any upper-case-led one. -/
def anyUpperFirst : List (List Char) → Option Bool
  | [] => some false
  | l :: ls =>
    match l with
    | [] => none
    | c :: _ => if c.isUpper then some true else anyUpperFirst ls

/-- `Note.is_fragment` (kim.py lines 149-151): the negation of the generator
above; `none` models the propagated `IndexError`. -/
def is_fragment? (labels : List (List Char)) : Option Bool :=
  (anyUpperFirst labels).map (fun b => !b)

/-- `Note.tags` (kim.py lines 227-229): the comprehension evaluates
`label[0]` for every label, so it raises (`none`) as soon as the label list
contains an empty string; otherwise it keeps the lower-case-led labels in
order. -/
def tags? (labels : List (List Char)) : Option (List (List Char)) :=
  if labels.any (fun l => l.isEmpty) then none
  else some (labels.filter headIsLower)

/-- `Note.folder` (kim.py lines 231-239): `"Fragments"` for fragments, else
the first upper-case-led label.  The whole comprehension and its `[0]` sit
inside the `try`, so the `except IndexError` catches both the indexing of an
empty comprehension result and the `label[0]` of an empty label inside the
comprehension — either way the property returns `"."`.  Only the
`self.is_fragment` evaluation, outside the `try`, can propagate an
`IndexError` (`none`). -/
def folder? (labels : List (List Char)) : Option (List Char) :=
  match is_fragment? labels with
  | none => none
  | some true => some ("Fragments".toList)
  | some false =>
    if labels.any (fun l => l.isEmpty) then some (".".toList)
    else
      match labels.filter headIsUpper with
      | [] => some (".".toList)
      | f :: _ => some f

/-- The fields of a `Note` that its title and label properties read. -/
structure NoteRec where
  base_title : List Char
  text : List Char
  labels : List (List Char)
  media : List (List Char)
  created : PyDateTime

/-- `Note.title` as a note property: it evaluates `self.is_fragment`, so it
propagates that property's `IndexError` (`none`) and otherwise resolves the
title with the computed fragment status. -/
def note_title? (n : NoteRec) : Option (List Char) :=
  (is_fragment? n.labels).map
    (fun fr => resolveTitle n.base_title n.text n.media fr n.created)

/-! ## NameService (kim.py lines 505-529)

The singleton's mutable `_namelist` is threaded explicitly: each operation
takes the current registry and returns the new registry together with the
resolved title.  `check_duplicate_name` recurses while the candidate is
already claimed; the recursion has no termination bound in the source (see
spec §9), so it is modelled with fuel, `none` meaning the fuel ran out. -/

/-- `NameService.check_duplicate_name`: while the title is claimed, append
the note date and retry; the recursive call appends the final title to the
registry and the returning frame appends it once more. -/
def check_duplicate_name : Nat → List String → String → String →
    Option (List String × String)
  | 0, _, _, _ => none
  | fuel + 1, names, title, date =>
    if title ∈ names then
      match check_duplicate_name fuel names (title ++ date) date with
      | none => none
      | some (names2, t2) => some (names2 ++ [t2], t2)
    else
      some (names ++ [title], title)

/-- The `while md_file.exists()` loop of `NameService.check_file_exists`,
with the set of paths existing on disk supplied as the list `fs`.  Each
iteration re-runs the duplicate check, appends the result once more, and
rebuilds the candidate path. -/
def cfeLoop (fs : List String) : Nat → List String → String → String →
    String → String → Option (List String × String)
  | 0, _, _, _, _, _ => none
  | fuel + 1, names, md_file, outpath, title, date =>
    if md_file ∈ fs then
      match check_duplicate_name (fuel + 1) names title date with
      | none => none
      | some (names2, t2) =>
        cfeLoop fs fuel (names2 ++ [t2]) (outpath ++ "/" ++ t2 ++ ".md")
          outpath t2 date
    else
      some (names, title)

/-- `NameService.check_file_exists`: first `self._namelist.remove(note_title)`
(which raises `ValueError`, modelled `none`, when the title is not
registered), then the collision loop against the filesystem `fs`. -/
def check_file_exists (fs : List String) (fuel : Nat) (names : List String)
    (md_file outpath title date : String) : Option (List String × String) :=
  if title ∈ names then
    cfeLoop fs fuel (names.erase title) md_file outpath title date
  else
    none

/-! ## FileService.set_file_extensions (kim.py lines 579-604)

`imghdr.what` inspects the downloaded bytes and returns the detected format
name (or `None`); it is an external library call, modelled here as the
`what` argument.  Only the naming logic is in scope: the copy of the data
file and the removal of the temporary are filesystem effects. -/

/-- The `media_name` computed by `FileService.set_file_extensions` from the
detection result and the base file name. -/
def set_file_extensions (what : Option String) (file_name : String) : String :=
  if what = some "png" then file_name ++ ".png"
  else if what = some "jpeg" then file_name ++ ".jpg"
  else if what = some "gif" then file_name ++ ".gif"
  else if what = some "webp" then file_name ++ ".webp"
  else file_name ++ ".m4a"

/-- Modelled from the spec's words (§4.5): the enumerated extension mapping,
in its fixed priority order — PNG → `.png`, JPEG → `.jpg`, GIF → `.gif`,
WEBP → `.webp`, anything else → `.m4a`.  Compared against
`set_file_extensions` by the refinement theorem for C9. -/
def extFor (what : Option String) : String :=
  if what = some "png" then ".png"
  else if what = some "jpeg" then ".jpg"
  else if what = some "gif" then ".gif"
  else if what = some "webp" then ".webp"
  else ".m4a"

/-! ## Concrete inputs used by witnesses and counterexamples -/

/-- A concrete creation time, 2024-01-02 03:04:05. -/
def dt0 : PyDateTime := ⟨2024, 1, 2, 3, 4, 5⟩

/-- A concrete fragment note (no label at all). -/
def n0 : NoteRec := ⟨"Hi".toList, [], [], [], dt0⟩

/-- A note whose labels contain an empty string after an upper-case-led
label. -/
def nW : NoteRec := ⟨"Note".toList, [], ["Work".toList, []], [], dt0⟩

/-- The label list of the spec's classification scenario. -/
def labels1 : List (List Char) := ["Work".toList, "urgent".toList, "work".toList]

/-! ## Helper lemmas for the URL rewriter -/

theorem matchUrl_eq_none {l : List Char}
    (h : ("http".toList).isPrefixOf l = false) : matchUrl l = none := by
  have h' : ¬ ("http".toList <+: l) := by
    rw [← List.isPrefixOf_iff_prefix, h]
    exact Bool.false_ne_true
  have hp1 : ¬ (("https://".toList) <+: l) := fun hp =>
    h' (List.IsPrefix.trans ⟨"s://".toList, rfl⟩ hp)
  have hp2 : ¬ (("http://".toList) <+: l) := fun hp =>
    h' (List.IsPrefix.trans ⟨"://".toList, rfl⟩ hp)
  simp only [matchUrl, List.isPrefixOf_iff_prefix]
  rw [if_neg hp1, if_neg hp2]

theorem findUrlsF_eq_nil : ∀ (fuel : Nat) (l : List Char),
    containsStr ("http".toList) l = false → findUrlsF fuel l = []
  | 0, _, _ => rfl
  | _ + 1, [], _ => rfl
  | fuel + 1, c :: cs, h => by
    rw [containsStr] at h
    obtain ⟨h1, h2⟩ := Bool.or_eq_false_iff.mp h
    rw [findUrlsF, matchUrl_eq_none h1]
    exact findUrlsF_eq_nil fuel cs h2

theorem replAllF_eq_self : ∀ (fuel : Nat) (l : List Char) (pat rep : List Char),
    containsStr pat l = false → replAllF fuel l pat rep = l
  | 0, _, _, _, _ => rfl
  | _ + 1, [], _, _, _ => rfl
  | fuel + 1, c :: cs, pat, rep, h => by
    rw [containsStr] at h
    obtain ⟨h1, h2⟩ := Bool.or_eq_false_iff.mp h
    rw [replAllF]
    simp only [h1]
    rw [if_neg (by simp)]
    rw [replAllF_eq_self fuel cs pat rep h2]

/-! ## Helper lemmas for the checkbox rewriter -/

theorem replAllF_single (p : Char) (rep : List Char) :
    ∀ (fuel : Nat) (t : List Char), t.length ≤ fuel →
      replAllF fuel t [p] rep = mapGlyphs (fun c => if c = p then rep else [c]) t
  | 0, [], _ => rfl
  | 0, _ :: _, h => absurd h (by simp)
  | _ + 1, [], _ => rfl
  | fuel + 1, c :: cs, h => by
    have hlen : cs.length ≤ fuel := by
      simpa using Nat.le_of_succ_le_succ (by simpa using h)
    by_cases hc : p = c
    · subst hc
      rw [replAllF, if_pos (by simp [List.isPrefixOf])]
      rw [show (p :: cs).drop [p].length = cs from rfl]
      rw [replAllF_single p rep fuel cs hlen]
      simp [mapGlyphs]
    · have hcp : ¬ c = p := fun h' => hc h'.symm
      rw [replAllF, if_neg (by simp [List.isPrefixOf]; exact hc)]
      rw [replAllF_single p rep fuel cs hlen]
      simp [mapGlyphs, hcp]

theorem mapGlyphs_append (f : Char → List Char) :
    ∀ (a b : List Char), mapGlyphs f (a ++ b) = mapGlyphs f a ++ mapGlyphs f b
  | [], _ => rfl
  | c :: cs, b => by simp [mapGlyphs, mapGlyphs_append f cs b]

theorem mapGlyphs_mapGlyphs (f g : Char → List Char) :
    ∀ (t : List Char),
      mapGlyphs g (mapGlyphs f t) = mapGlyphs (fun c => mapGlyphs g (f c)) t
  | [] => rfl
  | c :: cs => by
    simp [mapGlyphs, mapGlyphs_append, mapGlyphs_mapGlyphs f g cs]

theorem mapGlyphs_congr {f g : Char → List Char} (h : ∀ c, f c = g c) :
    ∀ t, mapGlyphs f t = mapGlyphs g t
  | [] => rfl
  | c :: cs => by simp [mapGlyphs, h c, mapGlyphs_congr h cs]

/-! ## Claim C2 -/

/-- C2 counterexample: `convert_urls` is not idempotent.  On the already
converted text `[http://a](http://a)` the URL regex matches the whole tail
`http://a](http://a)` (its character class contains `]`, `(` and `)`), so a
second application rewrites the document again. -/
theorem convert_urls_not_idempotent :
    convert_urls (convert_urls ("http://a".toList)) ≠
      convert_urls ("http://a".toList) := by
  decide

/-- C2 (amended): `convert_urls` is not idempotent in general (see the
counterexample); it is idempotent — indeed the identity — on every text that
contains neither the substring `http` (so the URL regex cannot match) nor the
sentinel `h%%%tp`. -/
theorem convert_urls_id_of_no_url (t : List Char)
    (h1 : containsStr ("http".toList) t = false)
    (h2 : containsStr ("h%%%tp".toList) t = false) :
    convert_urls t = t ∧ convert_urls (convert_urls t) = convert_urls t := by
  have hid : convert_urls t = t := by
    unfold convert_urls
    rw [findUrlsF_eq_nil t.length t h1]
    simp only [List.foldl_nil]
    unfold sentinelFix
    exact replAllF_eq_self t.length t _ _ h2
  exact ⟨hid, by rw [hid, hid]⟩

theorem convert_urls_id_of_no_url_witness :
    convert_urls ("no links here".toList) = "no links here".toList ∧
    convert_urls (convert_urls ("no links here".toList)) =
      convert_urls ("no links here".toList) :=
  convert_urls_id_of_no_url _ (by decide) (by decide)

/-! ## Claim C3 -/

/-- C3: on the body `Buy milk http://example.com http://example.com` both
occurrences of the repeated URL are wrapped independently into Markdown
links and the sentinel is restored, each occurrence replaced exactly once. -/
theorem convert_urls_buy_milk :
    convert_urls ("Buy milk http://example.com http://example.com".toList) =
      ("Buy milk [http://example.com](http://example.com) " ++
        "[http://example.com](http://example.com)").toList := by
  decide

/-! ## Claim C4 -/

/-- C4 counterexample: the checked-box glyph is replaced by `" - [x]"` — with
a leading space — not by the literal `"- [x]"` that the claim states. -/
theorem format_check_boxes_checked_space :
    format_check_boxes ['☑'] = (" - [x]").toList ∧
    format_check_boxes ['☑'] ≠ ("- [x]").toList := by
  decide

/-- C4 (amended): `format_check_boxes` performs a global character-wise
substitution: every unchecked-box glyph becomes `- [ ]`, every checked-box
glyph becomes `- [x]` preceded by one space, and every other character is
kept, so occurrence counts are preserved. -/
theorem format_check_boxes_eq_mapGlyphs (t : List Char) :
    format_check_boxes t = mapGlyphs boxSub t := by
  unfold format_check_boxes
  rw [replAllF_single '☐' _ t.length t le_rfl]
  rw [replAllF_single '☑' _ _ _ le_rfl]
  rw [mapGlyphs_mapGlyphs]
  refine mapGlyphs_congr (fun c => ?_) t
  by_cases h1 : c = '☐'
  · subst h1; decide
  · by_cases h2 : c = '☑'
    · subst h2; decide
    · simp [boxSub, mapGlyphs, h1, h2]

/-! ## Helper lemmas for the duplicate-name resolver -/

theorem cdn_mem {fuel : Nat} {names : List String} {title date : String}
    {names2 : List String} {t2 : String}
    (h : check_duplicate_name fuel names title date = some (names2, t2)) :
    t2 ∈ names2 := by
  induction fuel generalizing title names2 t2 with
  | zero => exact absurd h (by simp [check_duplicate_name])
  | succ fuel ih =>
    rw [check_duplicate_name] at h
    split at h
    · cases hrec : check_duplicate_name fuel names (title ++ date) date with
      | none => rw [hrec] at h; cases h
      | some p =>
        rw [hrec] at h
        obtain ⟨ns, t⟩ := p
        cases h
        simp
    · cases h
      simp

theorem cdn_not_mem {fuel : Nat} {names : List String} {title date : String}
    {names2 : List String} {t2 : String}
    (h : check_duplicate_name fuel names title date = some (names2, t2)) :
    t2 ∉ names := by
  induction fuel generalizing title names2 t2 with
  | zero => exact absurd h (by simp [check_duplicate_name])
  | succ fuel ih =>
    rw [check_duplicate_name] at h
    split at h
    case isTrue hmem =>
      cases hrec : check_duplicate_name fuel names (title ++ date) date with
      | none => rw [hrec] at h; cases h
      | some p =>
        rw [hrec] at h
        obtain ⟨ns, t⟩ := p
        cases h
        exact ih hrec
    case isFalse hmem =>
      cases h
      exact hmem

theorem cdn_extends {fuel : Nat} {names : List String} {title date : String}
    {names2 : List String} {t2 : String}
    (h : check_duplicate_name fuel names title date = some (names2, t2)) :
    ∃ e, names2 = names ++ e := by
  induction fuel generalizing title names2 t2 with
  | zero => exact absurd h (by simp [check_duplicate_name])
  | succ fuel ih =>
    rw [check_duplicate_name] at h
    split at h
    · cases hrec : check_duplicate_name fuel names (title ++ date) date with
      | none => rw [hrec] at h; cases h
      | some p =>
        rw [hrec] at h
        obtain ⟨ns, t⟩ := p
        cases h
        obtain ⟨e, he⟩ := ih hrec
        exact ⟨e ++ [t2], by rw [he, List.append_assoc]⟩
    · cases h
      exact ⟨[title], rfl⟩

/-! ## Claim C1 -/

/-- C1 counterexample: resolving the same proposed title `"A"` twice yields
distinct final titles, but the registry afterwards is
`["A", "AX", "AX"]` — the second resolution appends its result twice (once in
the recursive call and once in the returning frame), so the registry does
contain a duplicate entry. -/
theorem check_duplicate_name_registry_duplicate :
    check_duplicate_name 3 [] "A" "X" = some (["A"], "A") ∧
    check_duplicate_name 3 ["A"] "A" "X" = some (["A", "AX", "AX"], "AX") ∧
    ¬ (["A", "AX", "AX"] : List String).Nodup := by
  decide

/-- C1 (amended): for any two notes processed in one run whose proposed
titles are identical, `check_duplicate_name` returns two distinct final
titles; the registry afterwards contains both titles, but when a collision
occurred it holds the second final title twice, so it is not duplicate-free
as a list. -/
theorem check_duplicate_name_distinct (f1 f2 : Nat) (names : List String)
    (title d1 d2 : String) {n1 n2 : List String} {t1 t2 : String}
    (h1 : check_duplicate_name f1 names title d1 = some (n1, t1))
    (h2 : check_duplicate_name f2 n1 title d2 = some (n2, t2)) : t1 ≠ t2 := by
  have ht1 : t1 ∈ n1 := cdn_mem h1
  have ht2 : t2 ∉ n1 := cdn_not_mem h2
  intro he
  exact ht2 (he ▸ ht1)

theorem check_duplicate_name_distinct_witness :
    check_duplicate_name 3 [] "A" "X" = some (["A"], "A") ∧
    check_duplicate_name 3 ["A"] "A" "X" = some (["A", "AX", "AX"], "AX") ∧
    ("A" : String) ≠ "AX" :=
  ⟨by decide, by decide,
    @check_duplicate_name_distinct 3 3 [] "A" "X" "X" ["A"] ["A", "AX", "AX"]
      "A" "AX" (by decide) (by decide)⟩

/-! ## Claim C6 -/

/-- C6 counterexample: `check_file_exists` begins by removing the proposed
title from the registry, and when no file exists on disk at the candidate
path the loop body never runs, so the previously claimed title `"A"` stays
removed: the registry shrinks from `["A"]` to `[]`. -/
theorem check_file_exists_removes_title :
    check_file_exists [] 3 ["A"] "mdfiles/A.md" "mdfiles" "A" "X" =
      some ([], "A") ∧
    "A" ∈ (["A"] : List String) ∧ "A" ∉ ([] : List String) := by
  decide

/-- C6 (amended): the registry grows monotonically under
`check_duplicate_name`, which only ever appends entries; but
`check_file_exists` first removes the proposed title from the registry and
re-adds names only while the candidate file exists on disk, so a
reconciliation against a non-existing file permanently removes a previously
claimed title. -/
theorem check_duplicate_name_monotone (fuel : Nat) (names : List String)
    (title date : String) {names2 : List String} {t2 : String}
    (h : check_duplicate_name fuel names title date = some (names2, t2)) :
    ∃ e, names2 = names ++ e :=
  cdn_extends h

theorem check_duplicate_name_monotone_witness :
    check_duplicate_name 3 [] "A" "X" = some (["A"], "A") ∧
    ∃ e, ["A"] = ([] : List String) ++ e :=
  ⟨by decide, @check_duplicate_name_monotone 3 [] "A" "X" ["A"] "A" (by decide)⟩

/-! ## Claim C5 -/

/-- C5 counterexample: a non-fragment note whose raw title is empty and whose
body is `"."` resolves to the empty title — the first phrase of the body is
empty after splitting on the punctuation class, and no fallback applies, so
title resolution does return an empty string (the export loop at kim.py line
667 skips such notes). -/
theorem resolveTitle_can_be_empty :
    resolveTitle [] (".".toList) [] false dt0 = [] := by
  decide

/-- C5 (amended): title resolution is total (the embedding is a total
function of the note's raw title, body, media and fragment status), and a
fragment's resolved title is never empty; a non-fragment's resolved title
can be empty, as the counterexample shows, and such notes are skipped by the
caller rather than written. -/
theorem resolveTitle_fragment_ne_nil (base text : List Char)
    (media : List (List Char)) (dt : PyDateTime) :
    resolveTitle base text media true dt ≠ [] := by
  unfold resolveTitle
  simp [tsChars, fmt2]

/-! ## Claim C7 -/

/-- C7: for every fragment note (one whose labels have no upper-case-led
entry) the resolved title is exactly the 12-character `YYMMDDHHMMSS`
timestamp of the note's created time, followed — only when the base title is
non-empty — by exactly one space and the base title; a timestamp-only title
is a valid outcome. -/
theorem fragment_title_timestamp (n : NoteRec)
    (h : is_fragment? n.labels = some true) :
    note_title? n = some (tsChars n.created ++
      (if (baseTitlePart n.base_title n.text n.media).isEmpty then []
       else ' ' :: baseTitlePart n.base_title n.text n.media)) ∧
    (tsChars n.created).length = 12 := by
  constructor
  · unfold note_title?
    rw [h]
    rfl
  · rfl

theorem fragment_title_timestamp_witness :
    note_title? n0 = some (tsChars n0.created ++
      (if (baseTitlePart n0.base_title n0.text n0.media).isEmpty then []
       else ' ' :: baseTitlePart n0.base_title n0.text n0.media)) ∧
    (tsChars n0.created).length = 12 :=
  fragment_title_timestamp n0 (by decide)

/-! ## Helper lemmas for label classification -/

theorem not_any_isEmpty {labels : List (List Char)}
    (hne : ∀ l ∈ labels, l ≠ []) :
    labels.any (fun l => l.isEmpty) = false := by
  rw [List.any_eq_false]
  intro l hl
  simp [List.isEmpty_iff]
  exact hne l hl

theorem anyUpperFirst_isSome {labels : List (List Char)}
    (hne : ∀ l ∈ labels, l ≠ []) : (anyUpperFirst labels).isSome := by
  induction labels with
  | nil => rfl
  | cons l ls ih =>
    cases l with
    | nil => exact absurd rfl (hne [] (by simp))
    | cons c cs =>
      rw [anyUpperFirst]
      by_cases hc : c.isUpper
      · rw [if_pos hc]; rfl
      · rw [if_neg hc]
        exact ih (fun l hl => hne l (by simp [hl]))

theorem anyUpperFirst_false_find {labels : List (List Char)}
    (h : anyUpperFirst labels = some false) :
    labels.find? headIsUpper = none := by
  induction labels with
  | nil => rfl
  | cons l ls ih =>
    cases l with
    | nil => rw [anyUpperFirst] at h; cases h
    | cons c cs =>
      rw [anyUpperFirst] at h
      by_cases hc : c.isUpper
      · rw [if_pos hc] at h; cases h
      · rw [if_neg hc] at h
        rw [List.find?_cons_of_neg _ (by simp [headIsUpper, hc])]
        exact ih h

theorem anyUpperFirst_false_no_empty {labels : List (List Char)}
    (h : anyUpperFirst labels = some false) : [] ∉ labels := by
  induction labels with
  | nil => exact List.not_mem_nil []
  | cons l ls ih =>
    cases l with
    | nil => rw [anyUpperFirst] at h; cases h
    | cons c cs =>
      rw [anyUpperFirst] at h
      by_cases hc : c.isUpper
      · rw [if_pos hc] at h; cases h
      · rw [if_neg hc] at h
        intro hmem
        rcases List.mem_cons.mp hmem with h1 | h1
        · cases h1
        · exact ih h h1

theorem anyUpperFirst_true_first {labels : List (List Char)}
    (hne : ∀ l ∈ labels, l ≠ [])
    (h : anyUpperFirst labels = some true) :
    ∃ f rest, labels.filter headIsUpper = f :: rest ∧
      labels.find? headIsUpper = some f := by
  induction labels with
  | nil => cases h
  | cons l ls ih =>
    cases l with
    | nil => exact absurd rfl (hne [] (by simp))
    | cons c cs =>
      rw [anyUpperFirst] at h
      by_cases hc : c.isUpper
      · refine ⟨c :: cs, ls.filter headIsUpper, ?_, ?_⟩
        · rw [List.filter_cons, if_pos (by simp [headIsUpper, hc])]
        · exact List.find?_cons_of_pos _ (by simp [headIsUpper, hc])
      · rw [if_neg hc] at h
        obtain ⟨f, rest, h1, h2⟩ := ih (fun l hl => hne l (by simp [hl])) h
        refine ⟨f, rest, ?_, ?_⟩
        · rw [List.filter_cons, if_neg (by simp [headIsUpper, hc]), h1]
        · rw [List.find?_cons_of_neg _ (by simp [headIsUpper, hc]), h2]

/-! ## Claim C8 -/

/-- C8: for every label list all of whose labels are non-empty (an empty
label raises instead — claim C10), the tags are exactly the labels whose
first character is lower case, in original order, and the folder is the
first label whose first character is upper case, falling back to the
`Fragments` bucket when no such label exists. -/
theorem label_classification (labels : List (List Char))
    (hne : ∀ l ∈ labels, l ≠ []) :
    tags? labels = some (labels.filter headIsLower) ∧
    folder? labels = some (match labels.find? headIsUpper with
      | some f => f
      | none => "Fragments".toList) := by
  have hany := not_any_isEmpty hne
  constructor
  · rw [tags?, hany]
    rfl
  · cases hS : anyUpperFirst labels with
    | none =>
      have := anyUpperFirst_isSome hne
      rw [hS] at this
      cases this
    | some b =>
      cases b with
      | false =>
        rw [folder?]
        rw [show is_fragment? labels = some true by rw [is_fragment?, hS]; rfl]
        rw [anyUpperFirst_false_find hS]
      | true =>
        rw [folder?]
        rw [show is_fragment? labels = some false by rw [is_fragment?, hS]; rfl]
        simp only [hany]
        obtain ⟨f, rest, h1, h2⟩ := anyUpperFirst_true_first hne hS
        rw [h1, h2]
        rfl

theorem label_classification_witness :
    tags? labels1 = some ["urgent".toList, "work".toList] ∧
    folder? labels1 = some ("Work".toList) := by
  obtain ⟨h1, h2⟩ := label_classification labels1 (by decide)
  exact ⟨h1.trans (by decide), h2.trans (by decide)⟩

/-! ## Claim C9 -/

/-- C9: the media-name resolution is total and refines the spec's enumerated
extension mapping: the final media name is exactly the base name followed by
the extension the fixed priority order assigns to the detected content
signature, with `.m4a` for anything unrecognized. -/
theorem set_file_extensions_spec (what : Option String) (file_name : String) :
    set_file_extensions what file_name = file_name ++ extFor what := by
  by_cases h1 : what = some "png" <;>
    by_cases h2 : what = some "jpeg" <;>
      by_cases h3 : what = some "gif" <;>
        by_cases h4 : what = some "webp" <;>
          simp [set_file_extensions, extFor, h1, h2, h3, h4]

/-! ## Claim C10 -/

/-- C10 counterexample: the note `nW` carries the labels `["Work", ""]` —
the generator inside `is_fragment` short-circuits on the upper-case-led
`"Work"` before indexing the empty label, so `is_fragment` returns `False`
and title resolution succeeds instead of raising; and `folder` catches the
comprehension's `IndexError` on the empty label and returns `"."` instead of
raising. -/
theorem is_fragment_empty_label_no_raise :
    is_fragment? ["Work".toList, []] = some false ∧
    folder? ["Work".toList, []] = some (".".toList) ∧
    note_title? nW = some ("Note".toList) ∧
    [] ∈ nW.labels := by
  decide

/-- C10 (amended): `tags` raises for every note whose labels contain an
empty string; `is_fragment` — and therefore title resolution — raises only
when an empty label occurs before every upper-case-led label (the generator
short-circuits, see the counterexample); `folder` raises exactly when
`is_fragment` does, because its own `except IndexError` catches the
comprehension's empty-label error and returns `"."`; and all label
operations are total over notes all of whose labels are non-empty. -/
theorem label_ops_empty_label (labels : List (List Char)) :
    ([] ∈ labels → tags? labels = none) ∧
    (folder? labels = none ↔ is_fragment? labels = none) ∧
    ((∀ l ∈ labels, l ≠ []) →
      (is_fragment? labels).isSome ∧ (tags? labels).isSome ∧
        (folder? labels).isSome) := by
  refine ⟨?_, ?_, ?_⟩
  · intro hmem
    have hany : labels.any (fun l => l.isEmpty) = true :=
      List.any_eq_true.mpr ⟨[], hmem, rfl⟩
    rw [tags?, hany]
    rfl
  · cases hS : anyUpperFirst labels with
    | none =>
      have hfrag : is_fragment? labels = none := by rw [is_fragment?, hS]; rfl
      have hfold : folder? labels = none := by rw [folder?, hfrag]
      rw [hfrag, hfold]
      simp
    | some b =>
      cases b with
      | false =>
        have hfrag : is_fragment? labels = some true := by
          rw [is_fragment?, hS]; rfl
        have hfold : folder? labels = some ("Fragments".toList) := by
          rw [folder?, hfrag]
        rw [hfrag, hfold]
        simp
      | true =>
        have hfrag : is_fragment? labels = some false := by
          rw [is_fragment?, hS]; rfl
        rw [hfrag]
        by_cases hany : labels.any (fun l => l.isEmpty)
        · have hfold : folder? labels = some (".".toList) := by
            rw [folder?, hfrag]
            simp only [hany]
            rfl
          rw [hfold]
          simp
        · have hne : labels.any (fun l => l.isEmpty) = false :=
            Bool.not_eq_true _ ▸ Bool.of_not_eq_true hany
          cases hfil : labels.filter headIsUpper with
          | nil =>
            have hfold : folder? labels = some (".".toList) := by
              rw [folder?, hfrag, hne, hfil]
              rfl
            rw [hfold]
            simp
          | cons f fs =>
            have hfold : folder? labels = some f := by
              rw [folder?, hfrag, hne, hfil]
              rfl
            rw [hfold]
            simp
  · intro hne
    refine ⟨?_, ?_, ?_⟩
    · rw [is_fragment?]
      have := anyUpperFirst_isSome hne
      cases hS : anyUpperFirst labels with
      | none => rw [hS] at this; cases this
      | some b => rfl
    · rw [tags?, not_any_isEmpty hne]
      rfl
    · cases hS : anyUpperFirst labels with
      | none =>
        have := anyUpperFirst_isSome hne
        rw [hS] at this
        cases this
      | some b =>
        cases b with
        | false =>
          rw [folder?]
          rw [show is_fragment? labels = some true by
            rw [is_fragment?, hS]; rfl]
          rfl
        | true =>
          rw [folder?]
          rw [show is_fragment? labels = some false by
            rw [is_fragment?, hS]; rfl]
          rw [not_any_isEmpty hne]
          cases labels.filter headIsUpper <;> rfl

theorem label_ops_empty_label_witness :
    tags? [[]] = none ∧ (folder? [[]] = none ↔ is_fragment? [[]] = none) :=
  ⟨(label_ops_empty_label [[]]).1 (by decide), (label_ops_empty_label [[]]).2.1⟩

end Kim
